import Mathlib

/-!
# Verification of the lune module-resolution and packaging core

Shallow embedding of the Rust sources of `horsenuggets/lune`:

* `crates/lune/src/standalone/metadata.rs` — the standalone metadata codec
  (`Metadata::to_bytes`, `Metadata::from_bytes`, `Metadata::check_env`);
* `crates/lune-std/src/globals/require.rs` — the require argument resolver,
  alias resolution over `.luaurc` files, and the concurrent module loader;
* `crates/lune/src/cli/build/bundler.rs` — the static dependency bundler;
* `crates/lune-std/src/globals/script.rs` — the script-location stack.

Bytes are modelled as `List Nat` (each element a byte value), machine
integers as `Nat` with explicit `% 2^64` where wrap-around matters, and
fallible operations as `Option`/`Except`/dedicated result types.
-/

namespace Lune

/-! ## Standalone metadata codec (metadata.rs) -/

/-- The fixed 8-byte magic marker `b"cr3sc3nt"` (metadata.rs line 8). -/
def MAGIC : List Nat := [0x63, 0x72, 0x33, 0x73, 0x63, 0x33, 0x6e, 0x74]

/-- `2^64`, the modulus of `u64`/`usize` arithmetic (64-bit host). -/
def U64MOD : Nat := 2 ^ 64

/-- `u64::to_be_bytes`: the eight big-endian bytes of `n % 2^64`. -/
def u64be (n : Nat) : List Nat :=
  let m := n % U64MOD
  [m / 2 ^ 56 % 256, m / 2 ^ 48 % 256, m / 2 ^ 40 % 256, m / 2 ^ 32 % 256,
   m / 2 ^ 24 % 256, m / 2 ^ 16 % 256, m / 2 ^ 8 % 256, m % 256]

/-- `u64::from_be_bytes` over a byte list (most significant byte first). -/
def beToNat (l : List Nat) : Nat := l.foldl (fun acc b => acc * 256 + b) 0

/-- `usize` subtraction with release-mode wrap-around (mod `2^64`).
Rust release builds wrap on underflow; the wrapped value then makes the
subsequent slice indexing panic, which is what debug builds do directly. -/
def wsub (a b : Nat) : Nat := (a % U64MOD + (U64MOD - b % U64MOD)) % U64MOD

/-- `usize` addition with release-mode wrap-around (mod `2^64`). -/
def wadd (a b : Nat) : Nat := (a + b) % U64MOD

/-- Rust slice indexing `&l[a..b]`: the sub-slice when `a ≤ b ≤ l.length`,
`none` (a panic in Rust) otherwise. -/
def sliceRange (l : List Nat) (a b : Nat) : Option (List Nat) :=
  if a ≤ b ∧ b ≤ l.length then some ((l.drop a).take (b - a)) else none

/-- Strict UTF-8 validity of a byte sequence, as checked by Rust's
`String::from_utf8` (RFC 3629: no surrogates, no overlong encodings). -/
def utf8Valid : List Nat → Bool
  | [] => true
  | b :: rest =>
    if b ≤ 0x7F then utf8Valid rest
    else if 0xC2 ≤ b ∧ b ≤ 0xDF then
      match rest with
      | c1 :: r => decide (0x80 ≤ c1 ∧ c1 ≤ 0xBF) && utf8Valid r
      | [] => false
    else if b = 0xE0 then
      match rest with
      | c1 :: c2 :: r =>
        decide (0xA0 ≤ c1 ∧ c1 ≤ 0xBF) && decide (0x80 ≤ c2 ∧ c2 ≤ 0xBF) && utf8Valid r
      | _ => false
    else if (0xE1 ≤ b ∧ b ≤ 0xEC) ∨ (0xEE ≤ b ∧ b ≤ 0xEF) then
      match rest with
      | c1 :: c2 :: r =>
        decide (0x80 ≤ c1 ∧ c1 ≤ 0xBF) && decide (0x80 ≤ c2 ∧ c2 ≤ 0xBF) && utf8Valid r
      | _ => false
    else if b = 0xED then
      match rest with
      | c1 :: c2 :: r =>
        decide (0x80 ≤ c1 ∧ c1 ≤ 0x9F) && decide (0x80 ≤ c2 ∧ c2 ≤ 0xBF) && utf8Valid r
      | _ => false
    else if b = 0xF0 then
      match rest with
      | c1 :: c2 :: c3 :: r =>
        decide (0x90 ≤ c1 ∧ c1 ≤ 0xBF) && decide (0x80 ≤ c2 ∧ c2 ≤ 0xBF) &&
          decide (0x80 ≤ c3 ∧ c3 ≤ 0xBF) && utf8Valid r
      | _ => false
    else if 0xF1 ≤ b ∧ b ≤ 0xF3 then
      match rest with
      | c1 :: c2 :: c3 :: r =>
        decide (0x80 ≤ c1 ∧ c1 ≤ 0xBF) && decide (0x80 ≤ c2 ∧ c2 ≤ 0xBF) &&
          decide (0x80 ≤ c3 ∧ c3 ≤ 0xBF) && utf8Valid r
      | _ => false
    else if b = 0xF4 then
      match rest with
      | c1 :: c2 :: c3 :: r =>
        decide (0x80 ≤ c1 ∧ c1 ≤ 0x8F) && decide (0x80 ≤ c2 ∧ c2 ≤ 0xBF) &&
          decide (0x80 ≤ c3 ∧ c3 ≤ 0xBF) && utf8Valid r
      | _ => false
    else false

/-- `Metadata` (metadata.rs lines 32-36): the source bytes of the entry
script and its entry path. The entry path is a Rust `String`; it is kept
here as its UTF-8 bytes, with validity tracked by `utf8Valid`. -/
structure Metadata where
  source : List Nat
  entry_path : List Nat
deriving DecidableEq

/-- Result of `Metadata::from_bytes`: success, a recoverable `Err`, or a
Rust panic (unwinding slice-index / arithmetic failure). -/
inductive DecodeResult
  | ok (m : Metadata)
  | err (msg : String)
  | panicked
deriving DecidableEq

/-- `Metadata::to_bytes` (metadata.rs lines 116-125):
`[source][entry_path][entry_path_size: u64 BE][source_size: u64 BE][MAGIC]`. -/
def Metadata.to_bytes (m : Metadata) : List Nat :=
  m.source ++ m.entry_path ++ u64be m.entry_path.length ++
    u64be m.source.length ++ MAGIC

/-- `Metadata::from_bytes` (metadata.rs lines 79-109). Mirrors the source
step by step: reject inputs shorter than 24 bytes or without the trailing
magic; read the two big-endian size fields; compute
`data_start = len - 24 - source_size - entry_path_size` in `usize`
arithmetic; slice out source and entry path (slice indexing panics when
out of range); validate the entry path as UTF-8 (`String::from_utf8`).
`usize::try_from(u64)` cannot fail on the 64-bit hosts lune targets. -/
def Metadata.from_bytes (bytes : List Nat) : DecodeResult :=
  if bytes.length < 24 ∨ MAGIC.isSuffixOf bytes = false then
    .err "not a standalone binary"
  else
    let n := bytes.length
    let source_size := beToNat ((bytes.drop (n - 16)).take 8)
    let entry_path_size := beToNat ((bytes.drop (n - 24)).take 8)
    let data_start := wsub (wsub (wsub n 24) source_size) entry_path_size
    match sliceRange bytes data_start (wadd data_start source_size) with
    | none => .panicked
    | some source =>
      match sliceRange bytes (wadd data_start source_size)
          (wadd (wadd data_start source_size) entry_path_size) with
      | none => .panicked
      | some entry_path_bytes =>
        if utf8Valid entry_path_bytes then .ok ⟨source, entry_path_bytes⟩
        else .err "invalid utf-8 in entry path"

/-- `Metadata::check_env` (metadata.rs lines 43-49): the currently running
binary is treated as standalone iff its bytes end with the magic marker. -/
def isStandalone (contents : List Nat) : Bool := MAGIC.isSuffixOf contents

example : Metadata.from_bytes (Metadata.to_bytes ⟨[1, 2, 3], [105, 110]⟩) =
    .ok ⟨[1, 2, 3], [105, 110]⟩ := by decide

example : Metadata.from_bytes (u64be 0 ++ u64be 1 ++ MAGIC) = .panicked := by decide

example : Metadata.from_bytes (u64be 0 ++ MAGIC) = .err "not a standalone binary" := by
  decide

/-! ### Codec helper lemmas -/

theorem U64MOD_eq : U64MOD = 18446744073709551616 := by
  unfold U64MOD; norm_num

theorem u64be_length (n : Nat) : (u64be n).length = 8 := rfl

theorem beToNat_u64be (n : Nat) : beToNat (u64be n) = n % U64MOD := by
  unfold beToNat u64be
  simp only [List.foldl]
  have h : n % U64MOD < 18446744073709551616 := by
    rw [U64MOD_eq]; exact Nat.mod_lt _ (by norm_num)
  generalize n % U64MOD = m at *
  omega

theorem wsub_eq (a b : Nat) (hba : b ≤ a) (ha : a < U64MOD) : wsub a b = a - b := by
  unfold wsub
  rw [U64MOD_eq] at *
  omega

theorem wadd_eq (a b : Nat) (h : a + b < U64MOD) : wadd a b = a + b := by
  unfold wadd
  rw [U64MOD_eq] at *
  omega

theorem drop_len_append {α : Type} (l₁ l₂ : List α) (k : Nat) (h : k = l₁.length) :
    (l₁ ++ l₂).drop k = l₂ := by
  subst h; simp

theorem take_len_append {α : Type} (l₁ l₂ : List α) (k : Nat) (h : k = l₁.length) :
    (l₁ ++ l₂).take k = l₁ := by
  subst h; simp

theorem magic_suffix_append (pre : List Nat) : MAGIC.isSuffixOf (pre ++ MAGIC) = true := by
  rw [List.isSuffixOf_iff_suffix]
  exact List.suffix_append pre MAGIC

/-- C5 round-trip, general form: decoding the encoder's output appended to
arbitrary host bytes recovers the metadata exactly. -/
theorem from_bytes_to_bytes (host : List Nat) (m : Metadata)
    (hutf : utf8Valid m.entry_path = true)
    (hsz : host.length + m.source.length + m.entry_path.length + 24 < U64MOD) :
    Metadata.from_bytes (host ++ m.to_bytes) = .ok m := by
  obtain ⟨src, ep⟩ := m
  rw [U64MOD_eq] at hsz
  simp only at hutf hsz
  have hlen : (host ++ Metadata.to_bytes ⟨src, ep⟩).length =
      host.length + src.length + ep.length + 24 := by
    simp [Metadata.to_bytes, u64be_length, MAGIC]
    omega
  have hsuffix : MAGIC.isSuffixOf (host ++ Metadata.to_bytes ⟨src, ep⟩) = true := by
    have hsp : host ++ Metadata.to_bytes ⟨src, ep⟩ =
        (host ++ src ++ ep ++ u64be ep.length ++ u64be src.length) ++ MAGIC := by
      simp [Metadata.to_bytes]
    rw [hsp]
    exact magic_suffix_append _
  have hcond : ¬((host ++ Metadata.to_bytes ⟨src, ep⟩).length < 24 ∨
      MAGIC.isSuffixOf (host ++ Metadata.to_bytes ⟨src, ep⟩) = false) := by
    rw [hlen, hsuffix]
    simp
  have hdrop24 : (host ++ Metadata.to_bytes ⟨src, ep⟩).drop
      ((host ++ Metadata.to_bytes ⟨src, ep⟩).length - 24) =
      u64be ep.length ++ (u64be src.length ++ MAGIC) := by
    have hsp : host ++ Metadata.to_bytes ⟨src, ep⟩ =
        (host ++ src ++ ep) ++ (u64be ep.length ++ (u64be src.length ++ MAGIC)) := by
      simp [Metadata.to_bytes]
    rw [hlen, hsp]
    apply drop_len_append
    simp
    omega
  have hdrop16 : (host ++ Metadata.to_bytes ⟨src, ep⟩).drop
      ((host ++ Metadata.to_bytes ⟨src, ep⟩).length - 16) =
      u64be src.length ++ MAGIC := by
    have hsp : host ++ Metadata.to_bytes ⟨src, ep⟩ =
        (host ++ src ++ ep ++ u64be ep.length) ++ (u64be src.length ++ MAGIC) := by
      simp [Metadata.to_bytes]
    rw [hlen, hsp]
    apply drop_len_append
    simp [u64be_length]
    omega
  have hss : beToNat (((host ++ Metadata.to_bytes ⟨src, ep⟩).drop
      ((host ++ Metadata.to_bytes ⟨src, ep⟩).length - 16)).take 8) = src.length := by
    rw [hdrop16, take_len_append _ _ _ (u64be_length src.length).symm, beToNat_u64be]
    rw [U64MOD_eq]
    omega
  have hes : beToNat (((host ++ Metadata.to_bytes ⟨src, ep⟩).drop
      ((host ++ Metadata.to_bytes ⟨src, ep⟩).length - 24)).take 8) = ep.length := by
    rw [hdrop24, take_len_append _ _ _ (u64be_length ep.length).symm, beToNat_u64be]
    rw [U64MOD_eq]
    omega
  have hds : wsub (wsub (wsub ((host ++ Metadata.to_bytes ⟨src, ep⟩).length) 24)
      src.length) ep.length = host.length := by
    rw [hlen]
    unfold wsub
    rw [U64MOD_eq]
    omega
  have hwadd1 : wadd host.length src.length = host.length + src.length := by
    unfold wadd; rw [U64MOD_eq]; omega
  have hwadd2 : wadd (host.length + src.length) ep.length =
      host.length + src.length + ep.length := by
    unfold wadd; rw [U64MOD_eq]; omega
  have hslice1 : sliceRange (host ++ Metadata.to_bytes ⟨src, ep⟩) host.length
      (host.length + src.length) = some src := by
    unfold sliceRange
    rw [if_pos (by rw [hlen]; constructor <;> omega)]
    have hsp : host ++ Metadata.to_bytes ⟨src, ep⟩ =
        host ++ (src ++ (ep ++ u64be ep.length ++ u64be src.length ++ MAGIC)) := by
      simp [Metadata.to_bytes]
    rw [hsp, drop_len_append _ _ _ rfl]
    congr 1
    rw [take_len_append]
    omega
  have hslice2 : sliceRange (host ++ Metadata.to_bytes ⟨src, ep⟩)
      (host.length + src.length) (host.length + src.length + ep.length) = some ep := by
    unfold sliceRange
    rw [if_pos (by rw [hlen]; constructor <;> omega)]
    have hsp : host ++ Metadata.to_bytes ⟨src, ep⟩ =
        (host ++ src) ++ (ep ++ (u64be ep.length ++ u64be src.length ++ MAGIC)) := by
      simp [Metadata.to_bytes]
    rw [hsp, drop_len_append _ _ _ (by simp)]
    congr 1
    rw [take_len_append]
    omega
  unfold Metadata.from_bytes
  rw [if_neg hcond]
  simp only [hss, hes, hds, hwadd1, hwadd2, hslice1, hslice2, hutf, if_true]

/-! ### Claim theorems for the codec -/

/-- C4: the claim says `Metadata::from_bytes` never panics and returns
recoverable errors on malformed input. The code panics: a 24-byte input
whose size fields lie (entry-path size 0, source size 1, valid magic)
drives `data_start = len - 24 - source_size - entry_path_size` past zero,
and the subsequent slice indexing panics. This theorem evaluates the
decoder at that failing input. -/
theorem claim_C4_decode_panics :
    Metadata.from_bytes (u64be 0 ++ u64be 1 ++ MAGIC) = .panicked ∧
    (u64be 0 ++ u64be 1 ++ MAGIC).length = 24 ∧
    MAGIC.isSuffixOf (u64be 0 ++ u64be 1 ++ MAGIC) = true := by decide

/-- C5: decode ∘ encode is the identity on metadata — both on the bare
trailer and with the trailer appended to arbitrary host-executable bytes —
for every metadata value whose entry path is valid UTF-8 (a Rust `String`
invariant) and whose total size fits in `usize`. -/
theorem claim_C5_roundtrip (host : List Nat) (m : Metadata)
    (hutf : utf8Valid m.entry_path = true)
    (hsz : host.length + m.source.length + m.entry_path.length + 24 < U64MOD) :
    Metadata.from_bytes m.to_bytes = .ok m ∧
    Metadata.from_bytes (host ++ m.to_bytes) = .ok m := by
  constructor
  · have := from_bytes_to_bytes [] m hutf (by simpa using Nat.lt_of_le_of_lt (by omega) hsz)
    simpa using this
  · exact from_bytes_to_bytes host m hutf hsz

theorem claim_C5_roundtrip_witness :
    Metadata.from_bytes (Metadata.to_bytes ⟨[], []⟩) = .ok ⟨[], []⟩ ∧
    Metadata.from_bytes ([7, 7, 7] ++ Metadata.to_bytes ⟨[], []⟩) = .ok ⟨[], []⟩ :=
  claim_C5_roundtrip [7, 7, 7] ⟨[], []⟩ (by decide) (by decide)

/-- C6 counterexample: the claim states a byte string is recognized as a
standalone binary iff its last 8 bytes are the magic and its total length
is at least 16. A 16-byte string ending in the magic refutes it: the
decoder rejects it as not standalone (it requires at least 24 bytes). -/
theorem claim_C6_counterexample :
    (u64be 0 ++ MAGIC).length = 16 ∧
    MAGIC.isSuffixOf (u64be 0 ++ MAGIC) = true ∧
    Metadata.from_bytes (u64be 0 ++ MAGIC) = .err "not a standalone binary" := by decide

/-- C6 amended: the trailer layout is
`[source][entry_path][entry-path length u64 BE][source length u64 BE][magic]`
(two length fields, not one); `from_bytes` rejects a byte string as
not-standalone iff it is shorter than 24 bytes or lacks the magic suffix;
and the startup check (`check_env`) recognizes a standalone binary iff the
last 8 bytes equal the magic, with no further minimum-length requirement. -/
theorem claim_C6_amended :
    (∀ m : Metadata, m.to_bytes = m.source ++ m.entry_path ++
        u64be m.entry_path.length ++ u64be m.source.length ++ MAGIC) ∧
    (∀ bytes : List Nat, Metadata.from_bytes bytes = .err "not a standalone binary" ↔
      (bytes.length < 24 ∨ MAGIC.isSuffixOf bytes = false)) ∧
    (∀ contents : List Nat, isStandalone contents = true ↔
      MAGIC.isSuffixOf contents = true) := by
  refine ⟨fun m => rfl, fun bytes => ?_, fun contents => Iff.rfl⟩
  by_cases hcond : bytes.length < 24 ∨ MAGIC.isSuffixOf bytes = false
  · constructor
    · intro _; exact hcond
    · intro _
      unfold Metadata.from_bytes
      rw [if_pos hcond]
  · have hne : Metadata.from_bytes bytes ≠ .err "not a standalone binary" := by
      simp only [Metadata.from_bytes, if_neg hcond]
      split
      · intro h; cases h
      · split
        · intro h; cases h
        · split
          · intro h; cases h
          · intro h
            injection h with h2
            exact absurd h2 (by decide)
    exact iff_of_false hne hcond

/-! ## Reference and alias resolution (require.rs, bundler.rs)

Module reference strings (the argument of `require`) are modelled as
character lists (the contents of a Rust `&str`); absolute filesystem paths
as lists of components, each a character list, with `[]` the root
directory. -/

/-- Contents of a Rust string slice. -/
abbrev Str := List Char

/-- An absolute filesystem path as its list of components; `[]` is root. -/
abbrev FsPath := List Str

/-- `str::starts_with` for a literal pattern. -/
def strStartsWith (s pat : Str) : Bool := pat.isPrefixOf s

/-- `str::split('/')`-style split of a fragment into slash-separated
pieces (empty pieces included, as in Rust `Path` component parsing). -/
def splitSlash : Str → List Str
  | [] => [[]]
  | c :: rest =>
    let r := splitSlash rest
    if c = '/' then [] :: r
    else
      match r with
      | [] => [[c]]
      | h :: t => (c :: h) :: t

/-- The path components denoted by a fragment: slash-separated pieces with
empty pieces dropped (leading slash, doubled slashes). `.` and `..`
components are kept; they are removed only by `cleanPath`. -/
def splitComponents (s : Str) : FsPath :=
  (splitSlash s).filter (fun c => c ≠ [])

/-- `PathBuf::join`: joining an absolute fragment replaces the whole path,
otherwise the fragment's components are appended. -/
def joinPath (dir : FsPath) (frag : Str) : FsPath :=
  if strStartsWith frag ['/'] then splitComponents frag
  else dir ++ splitComponents frag

/-- Path normalization resolving `.` and `..` components. Modelled from
the spec: this stands for `lune_utils::path::clean_path_and_make_absolute`
(and `relative_path_normalize`), which live in the `lune-utils` crate, not
among the sources under verification; §4.1 of the spec describes
references resolved against the caller's directory and canonicalized.
`..` at the root stays at the root. -/
def cleanPath (p : FsPath) : FsPath :=
  p.foldl
    (fun acc c =>
      if c = ['.'] then acc
      else if c = ['.', '.'] then acc.dropLast
      else acc ++ [c])
    []

/-- Directory-to-configuration environment: for each directory, `some`
parsed alias table when its `.luaurc` exists, is readable and parses, else
`none` (`read_luaurc`, require.rs lines 178-191, collapses all failure
modes to `None`; the bundler's memoizing `get_config`, bundler.rs lines
311-327, caches the same lookup without changing its value). -/
def Cfg := FsPath → Option (List (Str × Str))

/-- Split an alias body at its first `/` into the alias name and the
optional rest of the path (require.rs lines 200-203: `alias_path.find('/')`). -/
def splitAlias : Str → Str × Option Str
  | [] => ([], none)
  | c :: rest =>
    if c = '/' then ([], some rest)
    else
      let p := splitAlias rest
      (c :: p.1, p.2)

/-- `resolved.join(rest_path)` when a rest is present, else unchanged. -/
def joinRest (p : FsPath) (rest : Option Str) : FsPath :=
  match rest with
  | none => p
  | some r => joinPath p r

/-- The value a directory's configuration declares for `name`, if any
(`read_luaurc(dir)` followed by `config.aliases.get(name)`). -/
def declValue (cfg : Cfg) (name : Str) (dir : FsPath) : Option Str :=
  (cfg dir).bind (fun al => al.lookup name)

/-- The `.luaurc` search loop of the runtime `resolve_alias` (require.rs
lines 221-241): look in the current directory, on a miss pop one
component; the root directory is checked last (`PathBuf::pop` fails at the
root and breaks the loop). On a hit the declared value is joined onto the
declaring directory, then the rest, then cleaned
(`clean_path_and_make_absolute`). Implemented by recursion on the number
of components of the directory still in scope: `dir0.take k` enumerates
exactly the chain produced by the source's repeated `PathBuf::pop`. -/
def aliasSearchAux (cfg : Cfg) (name : Str) (rest : Option Str) (dir0 : FsPath) :
    Nat → Option FsPath
  | 0 =>
    match declValue cfg name [] with
    | some value => some (cleanPath (joinRest (joinPath [] value) rest))
    | none => none
  | k + 1 =>
    match declValue cfg name (dir0.take (k + 1)) with
    | some value => some (cleanPath (joinRest (joinPath (dir0.take (k + 1)) value) rest))
    | none => aliasSearchAux cfg name rest dir0 k

/-- Entry point of the search loop: start at the caller's directory. -/
def aliasSearch (cfg : Cfg) (name : Str) (rest : Option Str) (dir : FsPath) :
    Option FsPath :=
  aliasSearchAux cfg name rest dir dir.length

/-- Runtime `resolve_alias` (require.rs lines 194-244): strip the `@`,
split into name and rest; `lune` is reserved for built-in modules (handled
before this function is reached); `self` resolves against the caller's
directory without consulting any configuration; other names walk the
`.luaurc` chain upward. `none` is surfaced by the caller as the
cannot-find-alias error. -/
def resolve_alias (cfg : Cfg) (aliasStr : Str) (caller_dir : FsPath) : Option FsPath :=
  if strStartsWith aliasStr ['@'] = false then none
  else
    let p := splitAlias (aliasStr.drop 1)
    if p.1 = "lune".data then none
    else if p.1 = "self".data then some (cleanPath (joinRest caller_dir p.2))
    else aliasSearch cfg p.1 p.2 caller_dir

/-- Result of the runtime `resolve_require_arg` (require.rs lines 162-168). -/
inductive RRes
  | FilePathR (abs : FsPath)
  | AliasR (a : Str)
deriving DecidableEq

instance {ε α : Type} [DecidableEq ε] [DecidableEq α] : DecidableEq (Except ε α) :=
  fun a b =>
    match a, b with
    | .ok x, .ok y =>
      if h : x = y then isTrue (h ▸ rfl)
      else isFalse (fun hh => h (by injection hh))
    | .error x, .error y =>
      if h : x = y then isTrue (h ▸ rfl)
      else isFalse (fun hh => h (by injection hh))
    | .ok _, .error _ => isFalse (fun hh => by injection hh)
    | .error _, .ok _ => isFalse (fun hh => by injection hh)

/-- Runtime `resolve_require_arg` (require.rs lines 246-299), string
argument with known caller directory. The first component of the Rust
`FilePath` pair — a caller-relative display path used only in error
messages — is not modelled; `abs` is the second component, which drives
loading. The userdata (`ScriptReference`) branch resolves to the handle's
own path and is not exercised by any claim. -/
def resolve_require_arg (path_str : Str) (caller_dir : FsPath) : Except String RRes :=
  if strStartsWith path_str ['/'] then
    .ok (.FilePathR (cleanPath (splitComponents path_str)))
  else if strStartsWith path_str ['.', '/'] || strStartsWith path_str ['.', '.', '/'] then
    .ok (.FilePathR (cleanPath (caller_dir ++ splitComponents path_str)))
  else if strStartsWith path_str ['@'] then
    .ok (.AliasR path_str)
  else
    .error "require path must start with ./, ../, /, or @"

/-- The `.luaurc` search loop of the bundler's `resolve_alias`
(bundler.rs lines 276-305): identical walk, but the result is the raw
joined path — the bundler does not clean it (canonicalization happens
later, in `process_file`). -/
def bundlerAliasSearchAux (cfg : Cfg) (name : Str) (rest : Option Str) (dir0 : FsPath) :
    Nat → Option FsPath
  | 0 =>
    match declValue cfg name [] with
    | some value => some (joinRest (joinPath [] value) rest)
    | none => none
  | k + 1 =>
    match declValue cfg name (dir0.take (k + 1)) with
    | some value => some (joinRest (joinPath (dir0.take (k + 1)) value) rest)
    | none => bundlerAliasSearchAux cfg name rest dir0 k

/-- Entry point of the bundler's search loop. -/
def bundlerAliasSearch (cfg : Cfg) (name : Str) (rest : Option Str) (dir : FsPath) :
    Option FsPath :=
  bundlerAliasSearchAux cfg name rest dir dir.length

/-- Bundler `resolve_alias` (bundler.rs lines 259-308). Differences from
the runtime version: no reserved `lune` name, and no path cleaning. The
side effect of recording exercised aliases into `aliases_canonical` only
feeds the bundle's alias map, not the resolution result, and is not
modelled. -/
def bundler_resolve_alias (cfg : Cfg) (aliasStr : Str) (caller_dir : FsPath) :
    Option FsPath :=
  if strStartsWith aliasStr ['@'] = false then none
  else
    let p := splitAlias (aliasStr.drop 1)
    if p.1 = "self".data then some (joinRest caller_dir p.2)
    else bundlerAliasSearch cfg p.1 p.2 caller_dir

/-- Bundler `resolve_require` (bundler.rs lines 242-256). Note the final
fallback: a bare reference is treated as relative to the caller's
directory rather than rejected. -/
def bundler_resolve_require (cfg : Cfg) (require_path : Str) (caller_dir : FsPath) :
    Option FsPath :=
  if strStartsWith require_path ['@'] then
    bundler_resolve_alias cfg require_path caller_dir
  else if strStartsWith require_path ['.', '/'] ||
      strStartsWith require_path ['.', '.', '/'] then
    some (caller_dir ++ splitComponents require_path)
  else if strStartsWith require_path ['/'] then
    some (splitComponents require_path)
  else
    some (caller_dir ++ splitComponents require_path)

example : resolve_require_arg "./b/c".data ["a".data] =
    .ok (.FilePathR ["a".data, "b".data, "c".data]) := by decide

example : bundler_resolve_require (fun _ => none) "foo".data ["home".data] =
    some ["home".data, "foo".data] := by decide

example : resolve_alias (fun d => if d = ["home".data] then
      some [("pkg".data, "lib".data)] else none)
    "@pkg/mod".data ["home".data, "sub".data] =
    some ["home".data, "lib".data, "mod".data] := by decide

/-! ### Resolution helper lemmas -/

theorem startsWith_shape1 {c : Char} {r : Str} (h : strStartsWith r [c] = true) :
    ∃ t, r = c :: t := by
  match r with
  | [] => simp [strStartsWith, List.isPrefixOf] at h
  | d :: t =>
    simp [strStartsWith, List.isPrefixOf] at h
    exact ⟨t, by rw [h]⟩

theorem startsWith_shape2 {c d : Char} {r : Str} (h : strStartsWith r [c, d] = true) :
    ∃ t, r = c :: d :: t := by
  match r with
  | [] => simp [strStartsWith, List.isPrefixOf] at h
  | [_] => simp [strStartsWith, List.isPrefixOf] at h
  | x :: y :: t =>
    simp [strStartsWith, List.isPrefixOf] at h
    exact ⟨t, by rw [h.1, h.2]⟩

theorem startsWith_shape3 {c d e : Char} {r : Str}
    (h : strStartsWith r [c, d, e] = true) : ∃ t, r = c :: d :: e :: t := by
  match r with
  | [] => simp [strStartsWith, List.isPrefixOf] at h
  | [_] => simp [strStartsWith, List.isPrefixOf] at h
  | [_, _] => simp [strStartsWith, List.isPrefixOf] at h
  | x :: y :: z :: t =>
    simp [strStartsWith, List.isPrefixOf] at h
    exact ⟨t, by rw [h.1, h.2.1, h.2.2]⟩

/-! ### Claim theorems for reference resolution -/

/-- C7 counterexample: the claim says any reference spelling not starting
with `./`, `../`, `/` or `@` is a usage error for the bundler just as for
the runtime resolver. The bundler instead resolves a bare reference
relative to the caller's directory, while the runtime resolver rejects
it. -/
theorem claim_C7_counterexample :
    bundler_resolve_require (fun _ => none) "foo".data ["home".data] =
      some ["home".data, "foo".data] ∧
    resolve_require_arg "foo".data ["home".data] =
      .error "require path must start with ./, ../, /, or @" := by decide

/-- C7 amended: the bundler applies the same resolution rules as the
runtime resolver, rooted at the referencing file's directory, for the four
declared reference classes — `./`/`../` relative to the caller's
directory, `/` absolute, `@` through alias resolution (the runtime defers
via `AliasR`, the bundler calls its alias walk) — but any other spelling,
which the runtime rejects as a usage error, the bundler resolves as if it
were relative to the caller's directory. Path agreement is up to
`cleanPath`: the runtime cleans eagerly, the bundler canonicalizes later. -/
theorem claim_C7_amended (cfg : Cfg) (r : Str) (dir : FsPath) :
    (strStartsWith r ['/'] = true →
      bundler_resolve_require cfg r dir = some (splitComponents r) ∧
      resolve_require_arg r dir = .ok (.FilePathR (cleanPath (splitComponents r)))) ∧
    ((strStartsWith r ['.', '/'] = true ∨ strStartsWith r ['.', '.', '/'] = true) →
      bundler_resolve_require cfg r dir = some (dir ++ splitComponents r) ∧
      resolve_require_arg r dir = .ok (.FilePathR (cleanPath (dir ++ splitComponents r)))) ∧
    (strStartsWith r ['@'] = true →
      bundler_resolve_require cfg r dir = bundler_resolve_alias cfg r dir ∧
      resolve_require_arg r dir = .ok (.AliasR r)) ∧
    (strStartsWith r ['/'] = false → strStartsWith r ['.', '/'] = false →
      strStartsWith r ['.', '.', '/'] = false → strStartsWith r ['@'] = false →
      bundler_resolve_require cfg r dir = some (dir ++ splitComponents r) ∧
      resolve_require_arg r dir =
        .error "require path must start with ./, ../, /, or @") := by
  refine ⟨?_, ?_, ?_, ?_⟩
  · intro h
    obtain ⟨t, rfl⟩ := startsWith_shape1 h
    constructor <;>
      simp [bundler_resolve_require, resolve_require_arg, strStartsWith, List.isPrefixOf]
  · intro h
    rcases h with h | h
    · obtain ⟨t, rfl⟩ := startsWith_shape2 h
      constructor <;>
        simp [bundler_resolve_require, resolve_require_arg, strStartsWith, List.isPrefixOf]
    · obtain ⟨t, rfl⟩ := startsWith_shape3 h
      constructor <;>
        simp [bundler_resolve_require, resolve_require_arg, strStartsWith, List.isPrefixOf]
  · intro h
    obtain ⟨t, rfl⟩ := startsWith_shape1 h
    constructor <;>
      simp [bundler_resolve_require, resolve_require_arg, strStartsWith, List.isPrefixOf]
  · intro h1 h2 h3 h4
    constructor
    · simp [bundler_resolve_require, h1, h2, h3, h4]
    · simp [resolve_require_arg, h1, h2, h3, h4]

theorem claim_C7_amended_witness :
    bundler_resolve_require (fun _ => none) "./m".data ["d".data] =
      some (["d".data] ++ splitComponents "./m".data) ∧
    resolve_require_arg "./m".data ["d".data] =
      .ok (.FilePathR (cleanPath (["d".data] ++ splitComponents "./m".data))) :=
  (claim_C7_amended (fun _ => none) "./m".data ["d".data]).2.1 (Or.inl (by decide))

/-- The chain of directories visited by the upward walk, nearest first:
`dir0.take k`, `dir0.take (k-1)`, …, down to the root `[]`. -/
def ancestorsAux (dir0 : FsPath) : Nat → List FsPath
  | 0 => [[]]
  | k + 1 => dir0.take (k + 1) :: ancestorsAux dir0 k

/-- The ancestor chain of a directory: itself, its parent, …, the root. -/
def ancestors (dir : FsPath) : List FsPath := ancestorsAux dir dir.length

/-- Declarative nearest-enclosing-scope lookup: the first (nearest)
ancestor directory whose configuration declares `name`, paired with the
declared value. -/
def firstDecl (cfg : Cfg) (name : Str) (dir : FsPath) : Option (FsPath × Str) :=
  ((ancestors dir).find? (fun d => (declValue cfg name d).isSome)).bind
    (fun d => (declValue cfg name d).map (fun v => (d, v)))

theorem aliasSearchAux_eq_firstDecl (cfg : Cfg) (name : Str) (rest : Option Str)
    (dir0 : FsPath) : ∀ k : Nat,
    aliasSearchAux cfg name rest dir0 k =
      (((ancestorsAux dir0 k).find? (fun d => (declValue cfg name d).isSome)).bind
        (fun d => (declValue cfg name d).map (fun v => (d, v)))).map
        (fun p => cleanPath (joinRest (joinPath p.1 p.2) rest)) := by
  intro k
  induction k with
  | zero =>
    cases h : declValue cfg name [] with
    | none => simp [aliasSearchAux, ancestorsAux, h]
    | some v => simp [aliasSearchAux, ancestorsAux, h]
  | succ k ih =>
    cases h : declValue cfg name (dir0.take (k + 1)) with
    | none => simp [aliasSearchAux, ancestorsAux, h, ih]
    | some v => simp [aliasSearchAux, ancestorsAux, h]

/-- C8: alias resolution. The special name `self` resolves to the caller's
directory joined with the rest of the reference and is independent of the
configuration environment (never reads any configuration); every other
non-built-in name resolves through the nearest ancestor directory whose
configuration declares it (nearest-wins shadowing), the declared value
joined onto the declaring directory and then the rest; when no ancestor up
to the root declares it, the result is `none` (surfaced as the
unknown-alias error). -/
theorem claim_C8_alias_resolution (cfg cfg2 : Cfg) (a : Str) (dir : FsPath)
    (ha : strStartsWith a ['@'] = true) :
    ((splitAlias (a.drop 1)).1 = "self".data →
      resolve_alias cfg a dir =
        some (cleanPath (joinRest dir (splitAlias (a.drop 1)).2)) ∧
      resolve_alias cfg a dir = resolve_alias cfg2 a dir) ∧
    ((splitAlias (a.drop 1)).1 ≠ "self".data → (splitAlias (a.drop 1)).1 ≠ "lune".data →
      resolve_alias cfg a dir =
        (firstDecl cfg (splitAlias (a.drop 1)).1 dir).map
          (fun p => cleanPath (joinRest (joinPath p.1 p.2) (splitAlias (a.drop 1)).2)) ∧
      (firstDecl cfg (splitAlias (a.drop 1)).1 dir = none →
        resolve_alias cfg a dir = none)) := by
  have hne : ¬(strStartsWith a ['@'] = false) := by simp [ha]
  constructor
  · intro hself
    have hlune : (splitAlias (a.drop 1)).1 ≠ "lune".data := by
      rw [hself]; decide
    have key : ∀ c : Cfg, resolve_alias c a dir =
        some (cleanPath (joinRest dir (splitAlias (a.drop 1)).2)) := by
      intro c
      simp only [resolve_alias, if_neg hne, if_neg hlune, if_pos hself]
    exact ⟨key cfg, (key cfg).trans (key cfg2).symm⟩
  · intro hself hlune
    have hmain : resolve_alias cfg a dir =
        (firstDecl cfg (splitAlias (a.drop 1)).1 dir).map
          (fun p => cleanPath (joinRest (joinPath p.1 p.2) (splitAlias (a.drop 1)).2)) := by
      simp only [resolve_alias, if_neg hne, if_neg hlune, if_neg hself]
      rw [aliasSearch, aliasSearchAux_eq_firstDecl]
      rfl
    refine ⟨hmain, fun hnone => ?_⟩
    rw [hmain, hnone]
    rfl

theorem claim_C8_alias_resolution_witness :
    resolve_alias
        (fun d => if d = ["home".data] then some [("pkg".data, "lib".data)] else none)
        "@self/util".data ["home".data, "sub".data] =
      some (cleanPath (joinRest ["home".data, "sub".data]
        (splitAlias ("@self/util".data.drop 1)).2)) ∧
    resolve_alias
        (fun d => if d = ["home".data] then some [("pkg".data, "lib".data)] else none)
        "@pkg/mod".data ["home".data, "sub".data] =
      (firstDecl
          (fun d => if d = ["home".data] then some [("pkg".data, "lib".data)] else none)
          (splitAlias ("@pkg/mod".data.drop 1)).1 ["home".data, "sub".data]).map
        (fun p => cleanPath (joinRest (joinPath p.1 p.2)
          (splitAlias ("@pkg/mod".data.drop 1)).2)) := by
  constructor
  · exact ((claim_C8_alias_resolution _
      (fun _ => none) "@self/util".data ["home".data, "sub".data] (by decide)).1
      (by decide)).1
  · exact ((claim_C8_alias_resolution _
      (fun _ => none) "@pkg/mod".data ["home".data, "sub".data] (by decide)).2
      (by decide) (by decide)).1

/-! ## Static bundler graph walk (bundler.rs) -/

/-- A source file as the bundler's walk sees it: the list of require
reference strings its regex scan extracts from the file's text. This
models the output of the lexical `require_regex` scan (bundler.rs lines
167-172); the scan is textual and external to the graph walk under
verification. -/
structure BFile where
  refs : List Str
deriving DecidableEq

/-- The filesystem snapshot the bundler walks: a finite set of files keyed
by canonical (cleaned) path, each with its scanned references, plus the
per-directory configuration environment used for alias resolution. -/
structure BFs where
  files : List (FsPath × BFile)
  cfg : Cfg

/-- `Path::is_file` against the snapshot. -/
def isFile (fs : BFs) (p : FsPath) : Bool :=
  (fs.files.find? (fun kv => kv.1 = cleanPath p)).isSome

/-- `Path::is_dir` against the snapshot: some file lives strictly below
the cleaned path. -/
def isDir (fs : BFs) (p : FsPath) : Bool :=
  fs.files.any (fun kv => cleanPath p ≠ kv.1 ∧ (cleanPath p).isPrefixOf kv.1)

/-- `Path::exists` against the snapshot. -/
def pathExists (fs : BFs) (p : FsPath) : Bool := isFile fs p || isDir fs p

/-- `fs::read` against the snapshot. -/
def readFs (fs : BFs) (p : FsPath) : Option BFile :=
  (fs.files.find? (fun kv => kv.1 = cleanPath p)).map Prod.snd

/-- `Path::canonicalize` with the source's fallback (bundler.rs lines
144-146): the cleaned path when the target exists (the model has no
symlinks), the raw path when canonicalization fails. -/
def canonicalize (fs : BFs) (p : FsPath) : FsPath :=
  if pathExists fs p then cleanPath p else p

/-- Split a character list at every occurrence of `sep`. -/
def splitChar (sep : Char) : Str → List Str
  | [] => [[]]
  | c :: rest =>
    let r := splitChar sep rest
    if c = sep then [] :: r
    else
      match r with
      | [] => [[c]]
      | h :: t => (c :: h) :: t

/-- `Path::with_extension` on a file name: replace the part after the last
`.` (a lone leading dot does not count as an extension separator), or
append the extension when there is none. -/
def setExt (name ext : Str) : Str :=
  match splitChar '.' name with
  | [] => name ++ '.' :: ext
  | [_] => name ++ '.' :: ext
  | [[], _] => name ++ '.' :: ext
  | parts => (List.intercalate ['.'] parts.dropLast) ++ '.' :: ext

/-- `Path::with_extension` on a path: rewrite the last component. -/
def withExtension (p : FsPath) (ext : Str) : FsPath :=
  p.dropLast ++ [setExt ((p.getLast?).getD []) ext]

/-- `Bundler::find_module_file` (bundler.rs lines 207-239): exact path,
then `.luau`/`.lua` extensions, then directory `init.luau`/`init.lua`,
then a final `init.luau` join attempt. -/
def find_module_file (fs : BFs) (p : FsPath) : Option FsPath :=
  if isFile fs p then some p
  else if isFile fs (withExtension p "luau".data) then some (withExtension p "luau".data)
  else if isFile fs (withExtension p "lua".data) then some (withExtension p "lua".data)
  else if isDir fs p && isFile fs (p ++ ["init.luau".data]) then
    some (p ++ ["init.luau".data])
  else if isDir fs p && isFile fs (p ++ ["init.lua".data]) then
    some (p ++ ["init.lua".data])
  else if isFile fs (p ++ ["init.luau".data]) then some (p ++ ["init.luau".data])
  else none

/-- The bundler state threaded through the walk: the visited-set of
canonical paths and the collected file map in insertion order
(`Bundler::processed` / `Bundler::files_canonical`). The `base_dir`
expansion and final key relativization (`normalize_path`), and the
recording of exercised aliases, shape only the emitted bundle's keys and
alias map, not the walk or the set of files, and are not modelled. -/
structure BState where
  processed : List FsPath
  files_canonical : List (FsPath × BFile)
deriving DecidableEq

/-- One work item of the walk: `.inl p` is a `process_file(p)` call
(bundler.rs lines 143-187), `.inr (rs, dir)` is the loop over the
remaining discovered references of a file whose directory is `dir`
(bundler.rs lines 175-184). -/
abbrev WorkItem := Sum FsPath (List Str × FsPath)

/-- The bundler's recursive walk, made total with a fuel parameter; `none`
means the fuel ran out (never the case for sufficient fuel, proved below).
Mirrors `Bundler::process_file`: canonicalize, no-op on an already
processed path, insert into the visited-set, read the file (a read failure
aborts the whole bundle), record the file, filter out `@lune/` references,
then for each reference resolve it, locate the module file and recurse. -/
def processGo (fs : BFs) : Nat → WorkItem → BState → Option (Except String BState)
  | 0, _, _ => none
  | fuel + 1, .inl file_path, st =>
    let canonical := canonicalize fs file_path
    if canonical ∈ st.processed then some (.ok st)
    else
      match readFs fs file_path with
      | none => some (.error "failed to read file")
      | some bf =>
        let st2 : BState := ⟨canonical :: st.processed,
          st.files_canonical ++ [(canonical, bf)]⟩
        let file_dir := file_path.dropLast
        let rs := bf.refs.filter (fun r => !(strStartsWith r "@lune/".data))
        processGo fs fuel (.inr (rs, file_dir)) st2
  | _ + 1, .inr ([], _), st => some (.ok st)
  | fuel + 1, .inr (r :: rs, file_dir), st =>
    match bundler_resolve_require fs.cfg r file_dir with
    | none => processGo fs fuel (.inr (rs, file_dir)) st
    | some resolved =>
      match find_module_file fs resolved with
      | none => processGo fs fuel (.inr (rs, file_dir)) st
      | some module_path =>
        if pathExists fs module_path then
          match processGo fs fuel (.inl module_path) st with
          | none => none
          | some (.error e) => some (.error e)
          | some (.ok st2) => processGo fs fuel (.inr (rs, file_dir)) st2
        else processGo fs fuel (.inr (rs, file_dir)) st

/-- `Bundler::process_file` entry point. -/
def process_file (fs : BFs) (fuel : Nat) (p : FsPath) (st : BState) :
    Option (Except String BState) :=
  processGo fs fuel (.inl p) st

/-- The chain scenario of C9: `/proj/a` requires `./b`, `/proj/b` requires
`./c`, `/proj/c` requires nothing. -/
def fsChain : BFs :=
  ⟨[(["proj".data, "a".data], ⟨["./b".data]⟩),
    (["proj".data, "b".data], ⟨["./c".data]⟩),
    (["proj".data, "c".data], ⟨[]⟩)], fun _ => none⟩

/-- The cycle scenario of C9: `/proj/a` and `/proj/b` require each other. -/
def fsCycle : BFs :=
  ⟨[(["proj".data, "a".data], ⟨["./b".data]⟩),
    (["proj".data, "b".data], ⟨["./a".data]⟩)], fun _ => none⟩

example : (process_file fsChain 10 ["proj".data, "a".data] ⟨[], []⟩).map
    (Except.map (fun st => st.files_canonical.map Prod.fst)) =
    some (.ok [["proj".data, "a".data], ["proj".data, "b".data],
      ["proj".data, "c".data]]) := by decide

example : (process_file fsCycle 10 ["proj".data, "a".data] ⟨[], []⟩).map
    (Except.map (fun st => st.files_canonical.map Prod.fst)) =
    some (.ok [["proj".data, "a".data], ["proj".data, "b".data]]) := by decide

/-! ### Termination of the bundler walk -/

/-- Fuel monotonicity: a completed walk is unaffected by extra fuel. -/
theorem processGo_fuel_mono (fs : BFs) : ∀ fuel fuel' (x : WorkItem) st r,
    fuel ≤ fuel' → processGo fs fuel x st = some r → processGo fs fuel' x st = some r := by
  intro fuel
  induction fuel with
  | zero => intro fuel' x st r _ hr; simp [processGo] at hr
  | succ fuel ih =>
    intro fuel' x st r hle hr
    match fuel', hle with
    | fuel' + 1, hle =>
      have hle' : fuel ≤ fuel' := by omega
      match x with
      | .inl p =>
        simp only [processGo] at hr ⊢
        by_cases hc : canonicalize fs p ∈ st.processed
        · simp only [if_pos hc] at hr ⊢; exact hr
        · simp only [if_neg hc] at hr ⊢
          cases hread : readFs fs p with
          | none => simp only [hread] at hr ⊢; exact hr
          | some bf =>
            simp only [hread] at hr ⊢
            exact ih _ _ _ _ hle' hr
      | .inr ([], d) => simp only [processGo] at hr ⊢; exact hr
      | .inr (r0 :: rs, d) =>
        simp only [processGo] at hr ⊢
        cases hres : bundler_resolve_require fs.cfg r0 d with
        | none => simp only [hres] at hr ⊢; exact ih _ _ _ _ hle' hr
        | some resolved =>
          simp only [hres] at hr ⊢
          cases hfind : find_module_file fs resolved with
          | none => simp only [hfind] at hr ⊢; exact ih _ _ _ _ hle' hr
          | some m =>
            simp only [hfind] at hr ⊢
            by_cases hex : pathExists fs m = true
            · simp only [hex, if_true] at hr ⊢
              cases hin : processGo fs fuel (.inl m) st with
              | none => simp only [hin] at hr; cases hr
              | some res =>
                have hin' := ih _ _ _ _ hle' hin
                simp only [hin, hin'] at hr ⊢
                cases res with
                | error e => exact hr
                | ok st2 => exact ih _ _ _ _ hle' hr
            · rw [if_neg hex] at hr ⊢
              exact ih _ _ _ _ hle' hr

/-- A successful walk only grows the visited-set. -/
theorem processGo_processed_subset (fs : BFs) : ∀ fuel (x : WorkItem) st st2,
    processGo fs fuel x st = some (.ok st2) → st.processed ⊆ st2.processed := by
  intro fuel
  induction fuel with
  | zero => intro x st st2 hr; simp [processGo] at hr
  | succ fuel ih =>
    intro x st st2 hr
    match x with
    | .inl p =>
      simp only [processGo] at hr
      by_cases hc : canonicalize fs p ∈ st.processed
      · simp only [if_pos hc] at hr
        injection hr with hr; injection hr with hr
        exact hr ▸ fun a ha => ha
      · simp only [if_neg hc] at hr
        cases hread : readFs fs p with
        | none => simp only [hread] at hr; injection hr with hr; cases hr
        | some bf =>
          simp only [hread] at hr
          have := ih _ _ _ hr
          exact fun a ha => this (List.mem_cons_of_mem _ ha)
    | .inr ([], d) =>
      simp only [processGo] at hr
      injection hr with hr; injection hr with hr
      exact hr ▸ fun a ha => ha
    | .inr (r0 :: rs, d) =>
      simp only [processGo] at hr
      cases hres : bundler_resolve_require fs.cfg r0 d with
      | none => simp only [hres] at hr; exact ih _ _ _ hr
      | some resolved =>
        simp only [hres] at hr
        cases hfind : find_module_file fs resolved with
        | none => simp only [hfind] at hr; exact ih _ _ _ hr
        | some m =>
          simp only [hfind] at hr
          by_cases hex : pathExists fs m = true
          · simp only [hex, if_true] at hr
            cases hin : processGo fs fuel (.inl m) st with
            | none => simp only [hin] at hr; cases hr
            | some res =>
              simp only [hin] at hr
              cases res with
              | error e => injection hr with hr; cases hr
              | ok stMid =>
                exact fun a ha => ih _ _ _ hr (ih _ _ _ hin ha)
          · rw [if_neg hex] at hr
            exact ih _ _ _ hr

/-- The canonical keys of the snapshot's files. -/
def bundleKeys (fs : BFs) : Finset FsPath := (fs.files.map Prod.fst).toFinset

/-- Number of snapshot files not yet in the visited-set. -/
def unprocessedCount (fs : BFs) (st : BState) : Nat :=
  (bundleKeys fs \ st.processed.toFinset).card

theorem unprocessedCount_mono (fs : BFs) {st st2 : BState}
    (h : st.processed ⊆ st2.processed) :
    unprocessedCount fs st2 ≤ unprocessedCount fs st := by
  apply Finset.card_le_card
  apply Finset.sdiff_subset_sdiff (le_refl _)
  intro a ha
  rw [List.mem_toFinset] at *
  exact h ha

theorem unprocessedCount_insert_lt (fs : BFs) (st : BState) (c : FsPath)
    (hmem : c ∈ bundleKeys fs) (hnot : c ∉ st.processed) (fc : List (FsPath × BFile)) :
    unprocessedCount fs ⟨c :: st.processed, fc⟩ < unprocessedCount fs st := by
  apply Finset.card_lt_card
  rw [Finset.ssubset_iff_of_subset]
  · refine ⟨c, ?_, ?_⟩
    · rw [Finset.mem_sdiff]
      exact ⟨hmem, by rw [List.mem_toFinset]; exact hnot⟩
    · rw [Finset.mem_sdiff]
      intro hcontra
      exact hcontra.2 (by rw [List.mem_toFinset]; exact List.mem_cons_self _ _)
  · apply Finset.sdiff_subset_sdiff (le_refl _)
    intro a ha
    rw [List.mem_toFinset] at *
    exact List.mem_cons_of_mem _ ha

theorem readFs_isFile {fs : BFs} {p : FsPath} {bf : BFile}
    (h : readFs fs p = some bf) : isFile fs p = true := by
  unfold readFs at h
  unfold isFile
  cases hf : fs.files.find? (fun kv => kv.1 = cleanPath p) with
  | none => rw [hf] at h; cases h
  | some kv => rfl

theorem readFs_key_mem {fs : BFs} {p : FsPath} {bf : BFile}
    (h : readFs fs p = some bf) : cleanPath p ∈ bundleKeys fs := by
  unfold readFs at h
  cases hf : fs.files.find? (fun kv => kv.1 = cleanPath p) with
  | none => rw [hf] at h; cases h
  | some kv =>
    have hmem := List.mem_of_find?_eq_some hf
    have hkey := List.find?_some hf
    simp only [decide_eq_true_eq] at hkey
    unfold bundleKeys
    rw [List.mem_toFinset, ← hkey]
    exact List.mem_map_of_mem Prod.fst hmem

theorem readFs_canonicalize {fs : BFs} {p : FsPath} {bf : BFile}
    (h : readFs fs p = some bf) : canonicalize fs p = cleanPath p := by
  unfold canonicalize pathExists
  rw [readFs_isFile h]
  rfl

/-- Termination: for every snapshot, start path and state there is enough
fuel for the walk to complete (revisiting a processed canonical path is a
no-op, so the visited-set bounds the recursion depth). -/
theorem processGo_terminates (fs : BFs) : ∀ (x : WorkItem) (st : BState),
    ∃ fuel r, processGo fs fuel x st = some r := by
  have main : ∀ u : Nat, ∀ st : BState, unprocessedCount fs st = u →
      ∀ x : WorkItem, ∃ fuel r, processGo fs fuel x st = some r := by
    intro u
    induction u using Nat.strong_induction_on with
    | _ u ihu =>
      -- the `process_file` case, for any state at the current count
      have hP : ∀ st : BState, unprocessedCount fs st = u → ∀ p : FsPath,
          ∃ fuel r, processGo fs fuel (.inl p) st = some r := by
        intro st hu p
        by_cases hc : canonicalize fs p ∈ st.processed
        · exact ⟨1, .ok st, by simp [processGo, hc]⟩
        · cases hread : readFs fs p with
          | none =>
            exact ⟨1, .error "failed to read file", by simp [processGo, hc, hread]⟩
          | some bf =>
            have hcan := readFs_canonicalize hread
            have hkey := readFs_key_mem hread
            rw [← hcan] at hkey
            set st2 : BState := ⟨canonicalize fs p :: st.processed,
              st.files_canonical ++ [(canonicalize fs p, bf)]⟩ with hst2
            have hlt : unprocessedCount fs st2 < u := by
              rw [← hu]
              exact unprocessedCount_insert_lt fs st _ hkey hc _
            obtain ⟨f, r, hf⟩ := ihu _ hlt st2 rfl
              (.inr (bf.refs.filter (fun r => !(strStartsWith r "@lune/".data)),
                p.dropLast))
            refine ⟨f + 1, r, ?_⟩
            simp only [processGo, if_neg hc, hread]
            exact hf
      -- the reference-loop case, by induction on the remaining references
      have hQ : ∀ rs : List Str, ∀ st : BState, unprocessedCount fs st = u →
          ∀ dir : FsPath, ∃ fuel r, processGo fs fuel (.inr (rs, dir)) st = some r := by
        intro rs
        induction rs with
        | nil => intro st _ dir; exact ⟨1, .ok st, by simp [processGo]⟩
        | cons r0 rs ihrs =>
          intro st hu dir
          cases hres : bundler_resolve_require fs.cfg r0 dir with
          | none =>
            obtain ⟨f, r, hf⟩ := ihrs st hu dir
            exact ⟨f + 1, r, by simp only [processGo, hres]; exact hf⟩
          | some resolved =>
            cases hfind : find_module_file fs resolved with
            | none =>
              obtain ⟨f, r, hf⟩ := ihrs st hu dir
              exact ⟨f + 1, r, by simp only [processGo, hres, hfind]; exact hf⟩
            | some m =>
              by_cases hex : pathExists fs m = true
              · obtain ⟨f1, r1, hf1⟩ := hP st hu m
                cases r1 with
                | error e =>
                  refine ⟨f1 + 1, .error e, ?_⟩
                  simp only [processGo, hres, hfind, hex, if_true, hf1]
                | ok st2 =>
                  have hsub := processGo_processed_subset fs _ _ _ _ hf1
                  have hle : unprocessedCount fs st2 ≤ u :=
                    hu ▸ unprocessedCount_mono fs hsub
                  have hrest : ∃ fuel r,
                      processGo fs fuel (.inr (rs, dir)) st2 = some r := by
                    rcases Nat.lt_or_ge (unprocessedCount fs st2) u with hlt | hge
                    · exact ihu _ hlt st2 rfl (.inr (rs, dir))
                    · exact ihrs st2 (le_antisymm hle hge) dir
                  obtain ⟨f2, r2, hf2⟩ := hrest
                  refine ⟨max f1 f2 + 1, r2, ?_⟩
                  have hf1' := processGo_fuel_mono fs _ _ _ _ _
                    (Nat.le_max_left f1 f2) hf1
                  have hf2' := processGo_fuel_mono fs _ _ _ _ _
                    (Nat.le_max_right f1 f2) hf2
                  simp only [processGo, hres, hfind, hex, if_true, hf1']
                  exact hf2'
              · obtain ⟨f, r, hf⟩ := ihrs st hu dir
                refine ⟨f + 1, r, ?_⟩
                simp only [processGo, hres, hfind]
                rw [if_neg hex]
                exact hf
      intro st hu x
      match x with
      | .inl p => exact hP st hu p
      | .inr (rs, dir) => exact hQ rs st hu dir
  intro x st
  exact main (unprocessedCount fs st) st rfl x

/-- C9: the bundler's graph walk terminates for every snapshot (there is
always enough fuel for the fuel-indexed embedding to complete), revisiting
an already-processed canonical path is a no-op, and on the two concrete
scenarios the collected file set is exactly the expected one: the chain
`A → B → C` yields `{A, B, C}` and the two-cycle `A ↔ B` yields `{A, B}`. -/
theorem claim_C9_bundler_walk :
    (∀ (fs : BFs) (p : FsPath) (st : BState),
      ∃ fuel r, process_file fs fuel p st = some r) ∧
    (∀ (fs : BFs) (fuel : Nat) (p : FsPath) (st : BState),
      canonicalize fs p ∈ st.processed →
        process_file fs (fuel + 1) p st = some (.ok st)) ∧
    (process_file fsChain 10 ["proj".data, "a".data] ⟨[], []⟩).map
      (Except.map (fun st => st.files_canonical.map Prod.fst)) =
      some (.ok [["proj".data, "a".data], ["proj".data, "b".data],
        ["proj".data, "c".data]]) ∧
    (process_file fsCycle 10 ["proj".data, "a".data] ⟨[], []⟩).map
      (Except.map (fun st => st.files_canonical.map Prod.fst)) =
      some (.ok [["proj".data, "a".data], ["proj".data, "b".data]]) := by
  refine ⟨fun fs p st => processGo_terminates fs (.inl p) st,
    fun fs fuel p st h => ?_, by decide, by decide⟩
  simp [process_file, processGo, h]

theorem claim_C9_bundler_walk_witness :
    process_file fsChain 1 ["proj".data, "a".data]
      ⟨[["proj".data, "a".data]], []⟩ =
      some (.ok ⟨[["proj".data, "a".data]], []⟩) :=
  claim_C9_bundler_walk.2.1 fsChain 0 ["proj".data, "a".data]
    ⟨[["proj".data, "a".data]], []⟩ (by decide)

/-! ## Concurrent module loader (require.rs)

The loader runs under a single-threaded cooperative scheduler: Rust async
code executes atomically between `await` points, so the model below makes
each segment of `require_fn` between suspension points one atomic step,
and a schedule (a list of thread indices) chooses the interleaving.
Resolved paths are abstract cache keys, modelled as `Nat`. -/

/-- A Lua value as the loader observes it: `nil` or a non-nil value with
an identity. A Lua table slot holding `nil` is indistinguishable from an
absent slot, which is why `nil` doubles as cache absence below. -/
inductive LuaVal
  | nil
  | val (n : Nat)
deriving DecidableEq

/-- What a require delivers: the module's returned multivalue or a runtime
error (`LuaResult<LuaMultiValue>`). -/
abbrev RequireResult := Except String (List LuaVal)

/-- A capacity-1 `async_channel` as used for pending loads: an optional
buffered message plus a closed flag. `async_channel` is a multi-producer
multi-consumer queue — each message is received by exactly one receiver,
and `recv` on a closed empty channel fails with `RecvError`. -/
structure Chan where
  buf : Option RequireResult
  closed : Bool
deriving DecidableEq

/-- Where a require call stands between its suspension points:

* `start`: about to run the cache-check / pending-check / create-pending
  segment (require.rs lines 452-471: no `await` separates these);
* `awaitingRecv c`: subscribed to pending channel `c`, suspended in
  `rx.recv().await` (lines 462-469);
* `awaitingRead c`: owner of pending channel `c`, suspended in
  `read_file(...).await` (lines 476-482);
* `awaitingExec c`: owner of `c`; the module chunk was loaded and pushed
  as a scheduler thread (`push_thread_back`), suspended in
  `wait_for_thread(...).await` (lines 484-488);
* `done r`: the call returned `r`. -/
inductive Phase
  | start
  | awaitingRecv (c : Nat)
  | awaitingRead (c : Nat)
  | awaitingExec (c : Nat)
  | done (r : RequireResult)
deriving DecidableEq

/-- One logical script thread requiring a resolved path. -/
structure ReqThread where
  path : Nat
  phase : Phase
deriving DecidableEq

/-- The loader's environment: whether reading each path's bytes succeeds,
and the fixed result of executing each path's top-level code (the
interpreter and filesystem are external collaborators). -/
structure LoaderEnv where
  readOk : Nat → Bool
  execRes : Nat → RequireResult

/-- Process-wide loader state. `cache` is the registry module-cache table
(`nil` = absent, as in a Lua table); `pending` models the
`RequireState.tx`/`rx` maps, which are always inserted and removed
together (path to channel id); `chans` holds the channels themselves —
subscribers keep cloned receivers, so a channel outlives its
`remove_pending`; `execCount` counts top-level executions per path (a
proof observable); `scriptStack` is the script-location stack of
script.rs. -/
structure LoaderState where
  cache : Nat → LuaVal
  pending : Nat → Option Nat
  chans : Nat → Chan
  nextChan : Nat
  threads : List ReqThread
  execCount : Nat → Nat
  scriptStack : List Nat

/-- `push_script_path` (script.rs lines 361-366): append to the stack. -/
def push_script_path (stack : List Nat) (p : Nat) : List Nat := stack ++ [p]

/-- `pop_script_path` (script.rs lines 369-377): drop the top entry. -/
def pop_script_path (stack : List Nat) : List Nat := stack.dropLast

/-- Pointwise function update. -/
def updFn {α β : Type} [DecidableEq α] (f : α → β) (a : α) (b : β) : α → β :=
  fun x => if x = a then b else f x

/-- `tx.receiver_count()` for channel `c` of path `p`: the clone held in
the `RequireState.rx` map (live until `remove_pending`) plus one per
subscriber currently suspended in `recv`. -/
def recvCount (s : LoaderState) (p c : Nat) : Nat :=
  (if s.pending p = some c then 1 else 0) +
    (s.threads.filter (fun t => t.phase = Phase.awaitingRecv c)).length

/-- One atomic step of thread `i` — a no-op when the thread does not
exist, is finished, or waits on a channel that has neither a message nor
been closed. Each branch mirrors one atomic segment of `require_fn`'s
`FilePath` arm (require.rs lines 435-510); the `Alias` arm (lines 350-433)
runs the identical load/cache/notify code after alias resolution. -/
def stepThread (env : LoaderEnv) (s : LoaderState) (i : Nat) : LoaderState :=
  match s.threads.get? i with
  | none => s
  | some t =>
    match t.phase with
    | .done _ => s
    | .start =>
      -- cache check (lines 454-460): a non-nil cached value is returned
      -- immediately as a single-value multivalue
      if s.cache t.path ≠ LuaVal.nil then
        { s with threads := s.threads.set i ⟨t.path, .done (.ok [s.cache t.path])⟩ }
      else
        match s.pending t.path with
        | some c =>
          -- a load is in flight (lines 462-469): subscribe to its channel
          { s with threads := s.threads.set i ⟨t.path, .awaitingRecv c⟩ }
        | none =>
          -- `create_pending` (line 471; require.rs lines 49-54), then
          -- suspend in `read_file`
          { s with
            chans := updFn s.chans s.nextChan ⟨none, false⟩
            pending := updFn s.pending t.path (some s.nextChan)
            nextChan := s.nextChan + 1
            threads := s.threads.set i ⟨t.path, .awaitingRead s.nextChan⟩ }
    | .awaitingRecv c =>
      match (s.chans c).buf with
      | some r =>
        -- the buffered message is delivered to exactly one receiver
        { s with
          chans := updFn s.chans c ⟨none, (s.chans c).closed⟩
          threads := s.threads.set i ⟨t.path, .done r⟩ }
      | none =>
        if (s.chans c).closed then
          -- `RecvError`, surfaced as the "require interrupted" error
          { s with
            threads := s.threads.set i ⟨t.path, .done (.error "require interrupted")⟩ }
        else s
    | .awaitingRead c =>
      if env.readOk t.path then
        -- bytes read; `lua.load`, `push_thread_back`, `track_thread`
        -- (lines 484-487): the module's top-level execution begins
        { s with
          execCount := updFn s.execCount t.path (s.execCount t.path + 1)
          threads := s.threads.set i ⟨t.path, .awaitingExec c⟩ }
      else
        -- read failure (lines 476-482): the `?` operator returns the
        -- error right away — `remove_pending` is never reached
        { s with threads := s.threads.set i ⟨t.path, .done (.error "cannot read")⟩ }
    | .awaitingExec c =>
      -- completion segment (lines 490-509), with `r := env.execRes t.path`
      -- the module's result: cache the first returned value if there is
      -- one, send the result once and close the channel when a receiver
      -- is live, remove the pending entry, return
      { s with
        cache :=
          match env.execRes t.path with
          | .ok (v :: _) => updFn s.cache t.path v
          | _ => s.cache
        chans :=
          if 0 < recvCount s t.path c then
            updFn s.chans c ⟨some (env.execRes t.path), true⟩
          else s.chans
        pending := updFn s.pending t.path none
        threads := s.threads.set i ⟨t.path, .done (env.execRes t.path)⟩ }

/-- Run a schedule: each entry picks the thread stepped next. -/
def runLoader (env : LoaderEnv) (s : LoaderState) : List Nat → LoaderState
  | [] => s
  | i :: rest => runLoader env (stepThread env s i) rest

/-- Fresh process state with one require call per listed path. -/
def initLoader (paths : List Nat) : LoaderState :=
  { cache := fun _ => LuaVal.nil
    pending := fun _ => none
    chans := fun _ => ⟨none, false⟩
    nextChan := 0
    threads := paths.map (fun p => ⟨p, .start⟩)
    execCount := fun _ => 0
    scriptStack := [] }

/-- Environment of the happy path: reads succeed and the module returns
one non-nil value. -/
def envOkVal : LoaderEnv := ⟨fun _ => true, fun _ => .ok [.val 7]⟩

/-- Environment where reading the module's bytes fails. -/
def envReadFail : LoaderEnv := ⟨fun _ => false, fun _ => .ok [.val 7]⟩

/-- Environment where the module executes successfully but returns no
values. -/
def envNoValue : LoaderEnv := ⟨fun _ => true, fun _ => .ok []⟩

example : (runLoader envOkVal (initLoader [0, 0, 0]) [0, 1, 2, 0, 0, 1, 2]).threads =
    [⟨0, .done (.ok [.val 7])⟩, ⟨0, .done (.ok [.val 7])⟩,
      ⟨0, .done (.error "require interrupted")⟩] := by decide

/-! ### Loader lemmas and claim theorems -/

theorem runLoader_append (env : LoaderEnv) (s : LoaderState) (l1 l2 : List Nat) :
    runLoader env s (l1 ++ l2) = runLoader env (runLoader env s l1) l2 := by
  induction l1 generalizing s with
  | nil => rfl
  | cons i rest ih => simp only [List.cons_append, runLoader]; exact ih _

/-- C1: the claim says every concurrent caller of one pending load gets
the identical result. With three concurrent requires of the same uncached
path, the module executes exactly once, but the completion segment sends
one message on the capacity-1 channel and closes it, so only one of the
two subscribers receives the result; the other's `recv` fails and it gets
the "require interrupted" error instead. This theorem evaluates that
schedule: thread 0 loads and executes, threads 1 and 2 subscribe. -/
theorem claim_C1_broadcast_lost :
    (runLoader envOkVal (initLoader [0, 0, 0]) [0, 1, 2, 0, 0, 1, 2]).execCount 0 = 1 ∧
    (runLoader envOkVal (initLoader [0, 0, 0]) [0, 1, 2, 0, 0, 1, 2]).threads =
      [⟨0, .done (.ok [.val 7])⟩, ⟨0, .done (.ok [.val 7])⟩,
        ⟨0, .done (.error "require interrupted")⟩] ∧
    (.error "require interrupted" : RequireResult) ≠ .ok [.val 7] := by decide

/-- C2: the claim says the pending entry is removed when a load finishes
even when reading the module's bytes fails, so a later require retries.
In the code the `?` on `read_file` returns without `remove_pending`: after
thread 0's read fails, the pending entry for the path is still present,
thread 0 holds the read error, no execution ever happened — and a second
require of the path subscribes to the dead channel and stays suspended
there no matter how many more times it is scheduled (the state is a
fixpoint of its steps), instead of starting a fresh attempt. -/
theorem claim_C2_stale_pending :
    ∀ k : Nat,
      (runLoader envReadFail (initLoader [0, 0])
          ([0, 0, 1] ++ List.replicate k 1)).pending 0 = some 0 ∧
      (runLoader envReadFail (initLoader [0, 0])
          ([0, 0, 1] ++ List.replicate k 1)).threads =
        [⟨0, .done (.error "cannot read")⟩, ⟨0, .awaitingRecv 0⟩] ∧
      (runLoader envReadFail (initLoader [0, 0])
          ([0, 0, 1] ++ List.replicate k 1)).execCount 0 = 0 := by
  have hrun : ∀ k : Nat,
      runLoader envReadFail (initLoader [0, 0]) ([0, 0, 1] ++ List.replicate k 1) =
        runLoader envReadFail (initLoader [0, 0]) [0, 0, 1] := by
    intro k
    induction k with
    | zero => rfl
    | succ k ih =>
      rw [List.replicate_succ', ← List.append_assoc, runLoader_append, ih]
      rfl
  intro k
  rw [hrun k]
  exact ⟨by decide, by decide, by decide⟩

/-- C3 counterexample: the claim says a successful require stores the
first return value and every later require of the path returns the cached
value without executing the module again (at most one execution per
process). A module whose top-level execution succeeds but returns no
values refutes this: nothing is cached, and a second require runs the
module a second time. -/
theorem claim_C3_counterexample :
    (runLoader envNoValue (initLoader [0, 0]) [0, 0, 0, 1, 1, 1]).execCount 0 = 2 ∧
    (runLoader envNoValue (initLoader [0, 0]) [0, 0, 0, 1, 1, 1]).threads =
      [⟨0, .done (.ok [])⟩, ⟨0, .done (.ok [])⟩] := by decide

/-- The value the completion segment would cache for a result: its first
returned value, with `nil` when there is none. -/
def firstVal : RequireResult → LuaVal
  | .ok (v :: _) => v
  | _ => LuaVal.nil

/-- The cache only ever holds a path's own first-execution value. -/
def cacheInv (env : LoaderEnv) (s : LoaderState) : Prop :=
  ∀ p, s.cache p = LuaVal.nil ∨ s.cache p = firstVal (env.execRes p)

theorem cacheInv_step (env : LoaderEnv) (s : LoaderState) (i : Nat)
    (h : cacheInv env s) : cacheInv env (stepThread env s i) := by
  unfold stepThread
  split
  · exact h
  · split
    · exact h
    · split
      · exact h
      · split
        · exact h
        · exact h
    · split
      · exact h
      · split
        · exact h
        · exact h
    · split
      · exact h
      · exact h
    · rename_i xo t hget xp c hphase
      intro p
      cases hr : env.execRes t.path with
      | error e => simp only [hr]; exact h p
      | ok vs =>
        cases vs with
        | nil => simp only [hr]; exact h p
        | cons v tl =>
          simp only [hr, updFn]
          by_cases hp : p = t.path
          · subst hp
            simp only [if_pos rfl]
            right
            rw [hr]
            rfl
          · simp only [if_neg hp]
            exact h p

theorem stepThread_cache_preserve (env : LoaderEnv) (s : LoaderState) (i p : Nat)
    (hinv : cacheInv env s) (hne : s.cache p ≠ LuaVal.nil) :
    (stepThread env s i).cache p = s.cache p := by
  unfold stepThread
  split
  · rfl
  · split
    · rfl
    · split
      · rfl
      · split
        · rfl
        · rfl
    · split
      · rfl
      · split
        · rfl
        · rfl
    · split
      · rfl
      · rfl
    · rename_i xo t hget xp c hphase
      cases hr : env.execRes t.path with
      | error e => simp only [hr]
      | ok vs =>
        cases vs with
        | nil => simp only [hr]
        | cons v tl =>
          simp only [hr, updFn]
          by_cases hp : p = t.path
          · subst hp
            simp only [if_pos rfl]
            rcases hinv t.path with hnil | hfv
            · exact absurd hnil hne
            · rw [hfv, hr]; rfl
          · simp only [if_neg hp]

theorem runLoader_cache_preserve (env : LoaderEnv) :
    ∀ (sched : List Nat) (s : LoaderState) (p : Nat), cacheInv env s →
      s.cache p ≠ LuaVal.nil → (runLoader env s sched).cache p = s.cache p := by
  intro sched
  induction sched with
  | nil => intro s p _ _; rfl
  | cons i rest ih =>
    intro s p hinv hne
    have hstep := stepThread_cache_preserve env s i p hinv hne
    have hinv2 := cacheInv_step env s i hinv
    have hne2 : (stepThread env s i).cache p ≠ LuaVal.nil := by rw [hstep]; exact hne
    simp only [runLoader]
    rw [ih _ p hinv2 hne2, hstep]

theorem cacheInv_run (env : LoaderEnv) : ∀ (sched : List Nat) (s : LoaderState),
    cacheInv env s → cacheInv env (runLoader env s sched) := by
  intro sched
  induction sched with
  | nil => intro s h; exact h
  | cons i rest ih => intro s h; exact ih _ (cacheInv_step env s i h)

/-- C3 amended: (i) a require of a path whose cache holds a non-nil value
completes immediately with exactly that value, with no other state change
(in particular no execution); (ii) when a load's execution succeeds with a
first return value, the completion segment stores that value in the cache;
(iii) from any reachable state, a non-nil cache entry keeps its value
under every further schedule — the cache is never invalidated. What the
original claim misses: a successful execution returning no values (or a
nil first value) caches nothing, so such a module can execute more than
once (see the counterexample). -/
theorem claim_C3_cache_once :
    (∀ (env : LoaderEnv) (s : LoaderState) (i : Nat) (t : ReqThread),
      s.threads.get? i = some t → t.phase = .start → s.cache t.path ≠ LuaVal.nil →
      stepThread env s i =
        { s with threads := s.threads.set i ⟨t.path, .done (.ok [s.cache t.path])⟩ }) ∧
    (∀ (env : LoaderEnv) (s : LoaderState) (i : Nat) (t : ReqThread) (c : Nat)
      (v : LuaVal) (vs : List LuaVal),
      s.threads.get? i = some t → t.phase = .awaitingExec c →
      env.execRes t.path = .ok (v :: vs) →
      (stepThread env s i).cache t.path = v) ∧
    (∀ (env : LoaderEnv) (ts : List Nat) (sched sched2 : List Nat) (p : Nat),
      (runLoader env (initLoader ts) sched).cache p ≠ LuaVal.nil →
      (runLoader env (runLoader env (initLoader ts) sched) sched2).cache p =
        (runLoader env (initLoader ts) sched).cache p) := by
  refine ⟨?_, ?_, ?_⟩
  · intro env s i t hget hph hne
    obtain ⟨tp, tph⟩ := t
    simp only at hph hne ⊢
    subst hph
    unfold stepThread
    rw [hget]
    simp only [if_pos hne]
  · intro env s i t c v vs hget hph hexec
    obtain ⟨tp, tph⟩ := t
    simp only at hph hexec ⊢
    subst hph
    unfold stepThread
    rw [hget]
    simp [hexec, updFn]
  · intro env ts sched sched2 p hne
    exact runLoader_cache_preserve env sched2 _ p
      (cacheInv_run env sched _ (fun q => Or.inl rfl)) hne

theorem claim_C3_cache_once_witness :
    (stepThread envOkVal
        ⟨updFn (fun _ => LuaVal.nil) 5 (.val 3), fun _ => none, fun _ => ⟨none, false⟩,
          0, [⟨5, .start⟩], fun _ => 0, []⟩ 0 =
      { (⟨updFn (fun _ => LuaVal.nil) 5 (.val 3), fun _ => none, fun _ => ⟨none, false⟩,
          0, [⟨5, .start⟩], fun _ => 0, []⟩ : LoaderState) with
        threads := [⟨5, .start⟩].set 0 ⟨5, .done (.ok
          [(⟨updFn (fun _ => LuaVal.nil) 5 (.val 3), fun _ => none, fun _ => ⟨none, false⟩,
            0, [⟨5, .start⟩], fun _ => 0, []⟩ : LoaderState).cache 5])⟩ }) ∧
    ((stepThread envOkVal
        ⟨fun _ => LuaVal.nil, fun _ => some 0, fun _ => ⟨none, false⟩, 1,
          [⟨1, .awaitingExec 0⟩], fun _ => 0, []⟩ 0).cache 1 = .val 7) ∧
    ((runLoader envOkVal (runLoader envOkVal (initLoader [0]) [0, 0, 0]) [0]).cache 0 =
      (runLoader envOkVal (initLoader [0]) [0, 0, 0]).cache 0) := by
  refine ⟨?_, ?_, ?_⟩
  · exact claim_C3_cache_once.1 envOkVal _ 0 ⟨5, .start⟩ (by decide) rfl (by decide)
  · exact claim_C3_cache_once.2.1 envOkVal _ 0 ⟨1, .awaitingExec 0⟩ 0 (.val 7) []
      (by decide) rfl rfl
  · exact claim_C3_cache_once.2.2 envOkVal [0] [0, 0, 0] [0] 0 (by decide)

/-- C10: the claim says every successful load pushes the module's location
onto the process-wide script-location stack before its top-level execution
and pops it afterwards on every exit path. The stack discipline itself
exists and is balanced (`pop_script_path` undoes `push_script_path`), but
`require_fn` never calls either: no loader step modifies the stack, and in
a concrete successful load the stack is empty while the module is
executing (thread suspended in `wait_for_thread`) and after it finishes. -/
theorem claim_C10_stack_never_pushed :
    (∀ (env : LoaderEnv) (s : LoaderState) (i : Nat),
      (stepThread env s i).scriptStack = s.scriptStack) ∧
    (∀ (stack : List Nat) (p : Nat),
      pop_script_path (push_script_path stack p) = stack) ∧
    (runLoader envOkVal (initLoader [0]) [0, 0]).threads = [⟨0, .awaitingExec 0⟩] ∧
    (runLoader envOkVal (initLoader [0]) [0, 0]).scriptStack = [] ∧
    (runLoader envOkVal (initLoader [0]) [0, 0, 0]).threads =
      [⟨0, .done (.ok [.val 7])⟩] ∧
    (runLoader envOkVal (initLoader [0]) [0, 0, 0]).scriptStack = [] := by
  refine ⟨?_, ?_, by decide, by decide, by decide, by decide⟩
  · intro env s i
    unfold stepThread
    split
    · rfl
    · split
      · rfl
      · split
        · rfl
        · split
          · rfl
          · rfl
      · split
        · rfl
        · split
          · rfl
          · rfl
      · split
        · rfl
        · rfl
      · rfl
  · intro stack p
    unfold pop_script_path push_script_path
    exact List.dropLast_concat

end Lune
